import Mathlib

/-!
Verification development for the quiz-bot test-session engine.

Shallow embedding of:
  * `src/models.py` (`Question`, `AdminConfig`, `Session`),
  * `src/utils/question_distribution.py` (`distribute_questions_by_category`),
  * `src/handlers/test.py` (`prepare_test`, `ask_next_question`, `process_answer`,
    `check_timeout`, `finish_test`),
  * `src/services/redis_service.py` (the per-user session entry, modelled as an
    `Option Session` field of the world; the Redis backend is modelled as reliable),
  * the call boundary of `src/services/google_sheets.py::write_result`.

Conventions:
  * `time.time()` floats are modelled as exact rationals (`ℚ`); the float quota
    arithmetic `num_questions * (count_c / total)` in the distributor is modelled
    exactly, so `int(raw)` becomes Nat division `T * c / total` and the fractional
    parts are compared through their numerators `T * c % total` (same denominator).
  * Python's insertion-ordered dict of categories is modelled by the list of
    category names in first-seen order plus the per-name bucket
    `questions.filter (category = c)`, which is exactly what the dict holds.
  * `random.sample` / `random.shuffle` are modelled by an explicit `Rand`
    parameter; `Rand.Lawful` states exactly the guarantees of the Python
    functions (a sample of size `k ≤ len` is a length-`k` sub-permutation,
    a shuffle is a permutation).
  * chat output (`message.answer`, `edit_text`) is modelled as a list of message
    tags; `callback.answer(...)` popups are transient acknowledgements and are
    not part of the persistent world.
-/

namespace QuizBot

/-- Mirrors `models.Question` (src/models.py). -/
structure Question where
  category : String
  question_text : String
  answer1 : String
  answer2 : String
  answer3 : String
  answer4 : String
  correct_answer : Nat
  is_critical : Bool
  explanation : Option String
  row_index : Nat
deriving DecidableEq, Repr, Inhabited

/-- Mirrors `models.AdminConfig` (src/models.py). -/
structure AdminConfig where
  num_questions : Nat
  max_errors : Int
  retry_hours : Nat
  seconds_per_question : Nat
deriving DecidableEq, Repr

/-- The frozen config snapshot stored on the session
(`admin_config_snapshot` dict in `prepare_test`, src/handlers/test.py). -/
structure AdminSnapshot where
  num_questions : Nat
  max_errors : Int
  retry_hours : Nat
  seconds_per_question : Nat
deriving DecidableEq, Repr

/-- Mirrors `models.Session` (src/models.py). `campaign_name`/`mode` are never
set by the standalone test flow and stay `none` there. -/
structure Session where
  fio : Option String
  question_ids : List Nat
  current_index : Nat
  remaining_score : Int
  correct_count : Nat
  started_at : ℚ
  last_action_at : ℚ
  per_question_deadline : Option ℚ
  snapshot : AdminSnapshot
  campaign_name : Option String
  mode : Option String
deriving DecidableEq, Repr

/-! ## Question distribution (src/utils/question_distribution.py) -/

/-- The category keys of the insertion-ordered dict built by the grouping loop,
in first-seen order. -/
def categoryNames : List Question → List String
  | [] => []
  | q :: rest => q.category :: (categoryNames rest).filter (fun c => c ≠ q.category)

/-- The bucket `categories[c]`: all pool questions of category `c`, in pool order. -/
def categoryBucket (qs : List Question) (c : String) : List Question :=
  qs.filter (fun q => q.category == c)

/-- `len(categories[c])`. -/
def catSize (qs : List Question) (c : String) : Nat := (categoryBucket qs c).length

/-- `int(num_questions * (count_c / total_questions))` with exact arithmetic. -/
def baseQuota (T total c : Nat) : Nat := T * c / total

/-- Numerator (over denominator `total`) of the fractional part
`raw - quota_c`; comparing these numerators compares the fractional parts. -/
def fracNum (T total c : Nat) : Nat := T * c % total

/-- `quotas[c] += 1`. -/
def bump (q : String → Nat) (c : String) : String → Nat :=
  fun x => if x = c then q x + 1 else q x

/-- `for i in range(remaining): quotas[sorted_categories[i % len(sorted_categories)][0]] += 1`.
First argument of the recursion is the number of iterations left, second the
current loop index `i`. -/
def addExtras (sorted : List String) : Nat → Nat → (String → Nat) → (String → Nat)
  | 0, _, q => q
  | r + 1, i, q => addExtras sorted r (i + 1) (bump q (sorted.getD (i % sorted.length) ""))

/-- The inner redistribution loop
`for i, other_cat in enumerate(other_categories): quotas[other_cat] = min(quotas[other_cat] + add, avail)`. -/
def addCapped (avail : String → Nat) (per rem : Nat) : List String → Nat → (String → Nat) → (String → Nat)
  | [], _, q => q
  | oc :: rest, i, q =>
      addCapped avail per rem rest (i + 1)
        (fun x => if x = oc then min (q oc + per + (if i < rem then 1 else 0)) (avail oc) else q x)

/-- One iteration of the clamping loop body (one `category` of
`for category in list(quotas.keys())`). -/
def clampStep (names : List String) (avail : String → Nat) (q : String → Nat) (c : String) : String → Nat :=
  if avail c < q c then
    let excess := q c - avail c
    let q1 : String → Nat := fun x => if x = c then avail c else q x
    if 0 < excess then
      let others := names.filter (fun x => x != c && decide (q1 x < avail x))
      if others.isEmpty then q1
      else addCapped avail (excess / others.length) (excess % others.length) others 0 q1
    else q1
  else q

/-- The whole clamping loop. -/
def clampPass (names : List String) (avail : String → Nat) (q : String → Nat) : String → Nat :=
  names.foldl (clampStep names avail) q

/-- `sorted(fractional_parts.items(), key=..., reverse=True)` as the comparator
of a stable merge sort over the category names (largest fractional part
first). -/
def sortKey (qs : List Question) (T : Nat) : String → String → Bool :=
  fun a b => decide (fracNum T qs.length (catSize qs b) ≤ fracNum T qs.length (catSize qs a))

def sortedCats (qs : List Question) (T : Nat) : List String :=
  (categoryNames qs).mergeSort (sortKey qs T)

/-- The base quota function `quotas[c] = int(raw)`. -/
def baseFun (qs : List Question) (T : Nat) : String → Nat :=
  fun c => baseQuota T qs.length (catSize qs c)

/-- `remaining = num_questions - total_quota`. -/
def remainderFor (qs : List Question) (T : Nat) : Nat :=
  T - ((categoryNames qs).map (baseFun qs T)).sum

/-- The final per-category quota function of
`distribute_questions_by_category` in the proportional branch: base quotas,
then the largest-remainder extras, then the clamping loop. -/
def quotasFor (qs : List Question) (T : Nat) : String → Nat :=
  clampPass (categoryNames qs) (fun c => catSize qs c)
    (addExtras (sortedCats qs T) (remainderFor qs T) 0 (baseFun qs T))

/-- The random choices of `random.sample` / `random.shuffle`, supplied as an
explicit parameter. -/
structure Rand where
  sample : List Question → Nat → List Question
  shuffle : List Question → List Question

/-- Exactly the guarantees of Python's `random.sample(l, k)` (for `k ≤ len(l)`:
a length-`k` selection of distinct positions of `l`) and `random.shuffle`
(a permutation). -/
def Rand.Lawful (r : Rand) : Prop :=
  (∀ l k, k ≤ l.length → (r.sample l k).length = k ∧ List.Subperm (r.sample l k) l) ∧
  ∀ l, List.Perm (r.shuffle l) l

/-- A concrete lawful instance (used to evaluate the model on concrete inputs):
`sample` takes the first `k` elements, `shuffle` is the identity. -/
def detRand : Rand where
  sample := fun l k => l.take k
  shuffle := fun l => l

/-- `distribute_questions_by_category` (src/utils/question_distribution.py). -/
def distribute_questions_by_category (r : Rand) (questions : List Question)
    (num_questions : Nat) : List Question :=
  if questions.isEmpty then []
  else if questions.length < num_questions then r.sample questions questions.length
  else
    let names := categoryNames questions
    let quotas := quotasFor questions num_questions
    let selected := names.foldl
      (fun acc c =>
        let catQs := categoryBucket questions c
        if 0 < quotas c then acc ++ r.sample catQs (min (quotas c) catQs.length) else acc) []
    (r.shuffle selected).take num_questions

theorem detRand_lawful : detRand.Lawful := by
  refine ⟨fun l k hk => ⟨by simp [detRand, Nat.min_eq_left hk], (List.take_sublist _ _).subperm⟩,
    fun l => List.Perm.refl l⟩

example :
    distribute_questions_by_category detRand
      [{ category := "A", question_text := "q1", answer1 := "a", answer2 := "b",
         answer3 := "", answer4 := "", correct_answer := 1, is_critical := false,
         explanation := none, row_index := 2 }] 1 =
      [{ category := "A", question_text := "q1", answer1 := "a", answer2 := "b",
         answer3 := "", answer4 := "", correct_answer := 1, is_critical := false,
         explanation := none, row_index := 2 }] := by
  decide

/-! ## Session engine world (src/handlers/test.py)

The world of one user: the aiogram FSM context (`state.get_data()` plus the FSM
state), the user's Redis session entry, the rows successfully appended to the
results sheet, and the chat messages sent so far (as tags). -/

/-- Tags for the `message.answer` / `edit_text` calls of the engine.
(`callback.answer(...)` popups are transient and not modelled.) -/
inductive Msg
  | alreadyActive
  | cooldown
  | insufficientQuestions
  | testStarted
  | questionMsg (idx : Nat)
  | notEnoughOptions
  | sessionDataMissing
  | timeoutExpired
  | scoreExhausted (idx : Nat)
  | saveWarning
  | result (passed : Bool) (correct_count : Nat) (total : Nat)
deriving DecidableEq, Repr

/-- The FSM states referenced by the handlers (`TestStates`). -/
inductive TState
  | COLLECT_FIO
  | CONFIRM_FIO
  | PREPARE_TEST
  | ASKING
  | WAIT_ANSWER
  | FINISHED
deriving DecidableEq, Repr

/-- The conversational data bag `state.get_data()`: the selected questions, the
serialized session, and the collected name. -/
structure ConvData where
  questions : List Question
  session : Option Session
  fio : Option String
deriving DecidableEq, Repr

/-- `state.clear()` empties the data bag. -/
def ConvData.empty : ConvData := { questions := [], session := none, fio := none }

/-- One row successfully appended to the results sheet by `write_result`
(the fields the claims observe; `passed = true` stands for the label
"Prošel/Passed" result_text, `notes` is the timeout question number). -/
structure ResultRow where
  fio : Option String
  passed : Bool
  correct_count : Nat
  notes : Option Nat
deriving DecidableEq, Repr

/-- The whole observable world of one user. -/
structure World where
  conv : ConvData
  fsm : Option TState
  redis : Option Session
  writes : List ResultRow
  msgs : List Msg
deriving DecidableEq, Repr

/-- Required (non-default) parameters of
`GoogleSheetsService.write_result` (src/services/google_sheets.py line 403). -/
def writeResultRequiredParams : List String :=
  ["telegram_id", "display_name", "test_date", "fio", "result", "correct_count",
   "campaign_name", "final_status"]

/-- Keyword arguments supplied at the only call site, inside `finish_test`
(src/handlers/test.py lines 363-371). -/
def finishTestCallKwargs : List String :=
  ["telegram_id", "display_name", "test_date", "fio", "result", "correct_count", "notes"]

/-- Python binds a call iff every required parameter receives an argument;
otherwise the call raises `TypeError` before the body runs (and here the
`except` in `finish_test` catches it). -/
def finishCallBindsOk : Bool :=
  writeResultRequiredParams.all (fun k => finishTestCallKwargs.contains k)

/-- `finish_test` (src/handlers/test.py lines 317-397). `recorderOk` models
whether the sheets backend append itself would succeed; the write lands only if
the call also binds (`finishCallBindsOk`). On recorder failure a warning is sent
and the flow continues: the result message is sent, the Redis entry is deleted
and the FSM context is cleared. When no session is in the data bag, the
function only reports and clears the FSM context. -/
def finish_test (recorderOk : Bool) (passed : Bool) (timeout_question : Option Nat)
    (w : World) : World :=
  match w.conv.session with
  | none =>
      { w with conv := ConvData.empty, fsm := none,
               msgs := w.msgs ++ [Msg.sessionDataMissing] }
  | some s =>
      let writeOk := finishCallBindsOk && recorderOk
      let writes' := if writeOk
        then w.writes ++ [{ fio := s.fio, passed := passed,
                            correct_count := s.correct_count, notes := timeout_question }]
        else w.writes
      let warn : List Msg := if writeOk then [] else [Msg.saveWarning]
      { conv := ConvData.empty, fsm := none, redis := none,
        writes := writes',
        msgs := w.msgs ++ warn ++ [Msg.result passed s.correct_count w.conv.questions.length] }

/-- Number of non-empty answer options (the inline keyboard buttons). -/
def countOptions (q : Question) : Nat :=
  ([q.answer1, q.answer2, q.answer3, q.answer4].filter (fun a => a != "")).length

/-- `ask_next_question` (src/handlers/test.py lines 130-211). `now` is the
`time.time()` of this invocation; the armed timeout watcher is modelled by
applying `check_timeout` separately at the presented `(index, deadline)` pair. -/
def ask_next_question (now : ℚ) (recorderOk : Bool) (w : World) : World :=
  match w.conv.session with
  | none =>
      { w with conv := ConvData.empty, fsm := none,
               msgs := w.msgs ++ [Msg.sessionDataMissing] }
  | some s =>
      if w.conv.questions.isEmpty then
        { w with conv := ConvData.empty, fsm := none,
                 msgs := w.msgs ++ [Msg.sessionDataMissing] }
      else if w.conv.questions.length ≤ s.current_index then
        finish_test recorderOk true none w
      else
        let q := w.conv.questions.getD s.current_index default
        let deadline := now + (s.snapshot.seconds_per_question : ℚ)
        let s' := { s with per_question_deadline := some deadline, last_action_at := now }
        let w' := { w with conv := { w.conv with session := some s' }, redis := some s' }
        if countOptions q < 2 then
          { w' with conv := ConvData.empty, fsm := none,
                    msgs := w'.msgs ++ [Msg.notEnoughOptions] }
        else
          { w' with fsm := some TState.WAIT_ANSWER,
                    msgs := w'.msgs ++ [Msg.questionMsg s.current_index] }

/-- Python truthiness-guarded deadline comparison
`session.per_question_deadline and time.time() > session.per_question_deadline`. -/
def deadlineExpired (now : ℚ) : Option ℚ → Bool
  | none => false
  | some d => d != 0 && decide (d < now)

/-- The scoring step of `process_answer`:
`if is_correct: correct_count += 1 else: remaining_score -= 1`.
Note: the `is_critical` flag of the question plays no role here. -/
def scoredSession (s : Session) (a correct : Nat) : Session :=
  if a = correct then { s with correct_count := s.correct_count + 1 }
  else { s with remaining_score := s.remaining_score - 1 }

/-- `process_answer` (src/handlers/test.py lines 242-314). The router only
dispatches it in the `WAIT_ANSWER` FSM state. `now` is the handler's
`time.time()`; `nowNext` the time of the chained `ask_next_question` call
(after the 1-second pacing pause). Note that both terminating branches call
`finish_test` before `state.update_data` persisted the freshly scored session,
so `finish_test` sees the pre-answer session snapshot. -/
def process_answer (now nowNext : ℚ) (recorderOk : Bool) (cb_qi cb_ans : Nat)
    (w : World) : World :=
  if w.fsm = some TState.WAIT_ANSWER then
    if w.conv.questions.isEmpty || w.conv.session.isNone then w
    else
      match w.conv.session with
      | none => w
      | some s =>
          let current_idx := s.current_index
          if cb_qi ≠ current_idx then w
          else if deadlineExpired now s.per_question_deadline then
            finish_test recorderOk false (some (current_idx + 1)) w
          else
            let q := w.conv.questions.getD current_idx default
            let s1 := scoredSession s cb_ans q.correct_answer
            if s1.remaining_score ≤ (0 : Int) then
              finish_test recorderOk false none
                { w with msgs := w.msgs ++ [Msg.scoreExhausted current_idx] }
            else
              let s2 := { s1 with
                current_index := current_idx + 1
                last_action_at := now
                per_question_deadline := none }
              ask_next_question nowNext recorderOk
                { w with conv := { w.conv with session := some s2 }, redis := some s2 }
  else w

/-- `check_timeout` (src/handlers/test.py lines 214-239), evaluated at its fire
time `now` for the armed `(question_index, deadline)` pair. -/
def check_timeout (now : ℚ) (recorderOk : Bool) (question_index : Nat) (deadline : ℚ)
    (w : World) : World :=
  let answered : Bool := match w.conv.session with
    | some s => decide (question_index < s.current_index)
    | none => false
  if answered then w
  else if deadline ≤ now then
    match w.conv.session with
    | some s =>
        if s.current_index = question_index then
          finish_test recorderOk false (some (question_index + 1))
            { w with msgs := w.msgs ++ [Msg.timeoutExpired] }
        else w
    | none => w
  else w

/-- The `Session(...)` constructed by `prepare_test`: cursor at 0, score budget
`max_errors`, no deadline yet, config snapshot frozen (with `num_questions`
set to the actually selected count). -/
def initialSession (now : ℚ) (cfg : AdminConfig) (fio : Option String)
    (selected : List Question) : Session :=
  { fio := fio, question_ids := selected.map (fun q => q.row_index),
    current_index := 0, remaining_score := cfg.max_errors, correct_count := 0,
    started_at := now, last_action_at := now, per_question_deadline := none,
    snapshot := { num_questions := selected.length, max_errors := cfg.max_errors,
                  retry_hours := cfg.retry_hours,
                  seconds_per_question := cfg.seconds_per_question },
    campaign_name := none, mode := none }

/-- `prepare_test` (src/handlers/test.py lines 30-127). `cfg` is the admin
config read from the sheet, `last_test_time` the cooldown timestamp, `pool`
the question bank; `now` is the handler's `time.time()` and `nowAsk` the time
of the chained `ask_next_question` call. -/
def prepare_test (now nowAsk : ℚ) (cfg : AdminConfig) (last_test_time : Option ℚ)
    (pool : List Question) (r : Rand) (recorderOk : Bool) (w : World) : World :=
  if w.redis.isSome then
    { w with msgs := w.msgs ++ [Msg.alreadyActive] }
  else
    let cooldownBlocked := match last_test_time with
      | none => false
      | some t => decide ((now - t) / 3600 < (cfg.retry_hours : ℚ))
    if cooldownBlocked then
      { w with conv := ConvData.empty, fsm := none, msgs := w.msgs ++ [Msg.cooldown] }
    else
      let selected := distribute_questions_by_category r pool cfg.num_questions
      let actual_num := selected.length
      if actual_num < cfg.num_questions then
        { w with conv := ConvData.empty, fsm := none,
                 msgs := w.msgs ++ [Msg.insufficientQuestions] }
      else
        let session : Session := initialSession now cfg w.conv.fio selected
        ask_next_question nowAsk recorderOk
          { w with
            conv := { w.conv with questions := selected, session := some session },
            redis := some session,
            fsm := some TState.ASKING,
            msgs := w.msgs ++ [Msg.testStarted] }

/-! ## Basic facts about `finish_test` -/

/-- The write_result call in finish_test does not bind: `campaign_name` and
`final_status` are required but not passed. -/
theorem finishCallBindsOk_eq_false : finishCallBindsOk = false := by decide

/-- `finish_test` always empties the conversational data bag and the FSM state. -/
theorem finish_test_clears (rec passed : Bool) (tq : Option Nat) (w : World) :
    (finish_test rec passed tq w).conv = ConvData.empty ∧
    (finish_test rec passed tq w).fsm = none := by
  unfold finish_test
  cases w.conv.session <;> simp

/-- Evaluation of `finish_test` when a session is present in the data bag. -/
theorem finish_test_eval (rec passed : Bool) (tq : Option Nat) (w : World) (s : Session)
    (h : w.conv.session = some s) :
    finish_test rec passed tq w =
      { conv := ConvData.empty, fsm := none, redis := none,
        writes := if finishCallBindsOk && rec
          then w.writes ++ [{ fio := s.fio, passed := passed,
                              correct_count := s.correct_count, notes := tq }]
          else w.writes,
        msgs := w.msgs ++ (if finishCallBindsOk && rec then [] else [Msg.saveWarning]) ++
          [Msg.result passed s.correct_count w.conv.questions.length] } := by
  unfold finish_test
  rw [h]

/-- C5 — `finish_test` clears the Redis entry and the conversation state for
every session reaching it, regardless of whether the result-recorder call
succeeds or fails (`recorderOk` quantified). -/
theorem C5_finish_clears_both_stores (recorderOk passed : Bool) (tq : Option Nat)
    (w : World) (s : Session) (h : w.conv.session = some s) :
    (finish_test recorderOk passed tq w).redis = none ∧
    (finish_test recorderOk passed tq w).conv.session = none ∧
    (finish_test recorderOk passed tq w).conv = ConvData.empty ∧
    (finish_test recorderOk passed tq w).fsm = none := by
  rw [finish_test_eval recorderOk passed tq w s h]
  simp [ConvData.empty]

/-- Concrete session used by the witnesses. -/
def sessW : Session :=
  { fio := some "P", question_ids := [2, 3], current_index := 0,
    remaining_score := 2, correct_count := 0, started_at := 0, last_action_at := 0,
    per_question_deadline := some 60,
    snapshot := { num_questions := 2, max_errors := 2, retry_hours := 24,
                  seconds_per_question := 60 },
    campaign_name := none, mode := none }

/-- A two-option question, correct answer 1. -/
def sampleQ (c : String) (crit : Bool) (i : Nat) : Question :=
  { category := c, question_text := "q", answer1 := "x", answer2 := "y",
    answer3 := "", answer4 := "", correct_answer := 1, is_critical := crit,
    explanation := none, row_index := i }

/-- Concrete active world used by the witnesses. -/
def wActive : World :=
  { conv := { questions := [sampleQ "A" false 2, sampleQ "A" false 3],
              session := some sessW, fio := some "P" },
    fsm := some TState.WAIT_ANSWER, redis := some sessW, writes := [], msgs := [] }

theorem C5_finish_clears_both_stores_witness :
    wActive.conv.session = some sessW ∧
    ((finish_test false true none wActive).redis = none ∧
     (finish_test false true none wActive).conv.session = none ∧
     (finish_test false true none wActive).conv = ConvData.empty ∧
     (finish_test false true none wActive).fsm = none) :=
  ⟨rfl, C5_finish_clears_both_stores false true none wActive sessW rfl⟩

/-- C6 — a second `finish_test` after a completed one performs no further result
write and no further store-clear effect: the writes list, the Redis entry, the
conversation data and the FSM state are all exactly those of the first call. -/
theorem C6_finish_idempotent (r1 r2 p1 p2 : Bool) (t1 t2 : Option Nat) (w : World) :
    (finish_test r2 p2 t2 (finish_test r1 p1 t1 w)).writes = (finish_test r1 p1 t1 w).writes ∧
    (finish_test r2 p2 t2 (finish_test r1 p1 t1 w)).redis = (finish_test r1 p1 t1 w).redis ∧
    (finish_test r2 p2 t2 (finish_test r1 p1 t1 w)).conv = (finish_test r1 p1 t1 w).conv ∧
    (finish_test r2 p2 t2 (finish_test r1 p1 t1 w)).fsm = (finish_test r1 p1 t1 w).fsm := by
  cases h : w.conv.session with
  | none => simp [finish_test, h, ConvData.empty]
  | some s => simp [finish_test, h, ConvData.empty]

/-- C7 — `prepare_test` for a user whose Redis entry still holds an active
session only sends the "session already active" message: no new session is
created and the whole world state (both stores, FSM, writes) is untouched. -/
theorem C7_prepare_rejects_when_active (now nowAsk : ℚ) (cfg : AdminConfig)
    (ltt : Option ℚ) (pool : List Question) (r : Rand) (rec : Bool)
    (w : World) (s : Session) (h : w.redis = some s) :
    prepare_test now nowAsk cfg ltt pool r rec w =
      { w with msgs := w.msgs ++ [Msg.alreadyActive] } := by
  unfold prepare_test
  rw [h]
  simp

theorem C7_prepare_rejects_when_active_witness :
    wActive.redis = some sessW ∧
    prepare_test 0 0 { num_questions := 2, max_errors := 2, retry_hours := 24,
                       seconds_per_question := 60 } none [] detRand true wActive =
      { wActive with msgs := wActive.msgs ++ [Msg.alreadyActive] } :=
  ⟨rfl, C7_prepare_rejects_when_active 0 0 _ none [] detRand true wActive sessW rfl⟩

/-! ## Evaluation lemmas for `ask_next_question` and `process_answer` -/

/-- `ask_next_question` in its presenting branch: sets the deadline, persists
the refreshed session to both stores, sends the question and moves to
`WAIT_ANSWER`. -/
theorem ask_next_question_present (now : ℚ) (rec : Bool) (w : World) (s : Session)
    (hs : w.conv.session = some s)
    (hidx : s.current_index < w.conv.questions.length)
    (hopts : 2 ≤ countOptions (w.conv.questions.getD s.current_index default)) :
    ask_next_question now rec w =
      { w with
        conv := { w.conv with session := some { s with
            per_question_deadline := some (now + (s.snapshot.seconds_per_question : ℚ))
            last_action_at := now } }
        redis := some { s with
            per_question_deadline := some (now + (s.snapshot.seconds_per_question : ℚ))
            last_action_at := now }
        fsm := some TState.WAIT_ANSWER
        msgs := w.msgs ++ [Msg.questionMsg s.current_index] } := by
  have hq : w.conv.questions.isEmpty = false := by
    cases hqq : w.conv.questions with
    | nil => rw [hqq] at hidx; simp at hidx
    | cons x xs => simp [hqq]
  unfold ask_next_question
  simp only [hs]
  rw [if_neg (by simp [hq]), if_neg (Nat.not_le.mpr hidx), if_neg (Nat.not_lt.mpr hopts)]

/-- `process_answer`, matching index, within the deadline, scored session out
of budget: edits the question message and finishes the test as failed (before
persisting the scored session, so `finish_test` still sees the old one). -/
theorem process_answer_exhaust (now nowNext : ℚ) (rec : Bool) (a : Nat)
    (w : World) (s : Session)
    (hfsm : w.fsm = some TState.WAIT_ANSWER)
    (hs : w.conv.session = some s)
    (hq : w.conv.questions.isEmpty = false)
    (hdl : deadlineExpired now s.per_question_deadline = false)
    (hex : (scoredSession s a
      (w.conv.questions.getD s.current_index default).correct_answer).remaining_score ≤ (0 : Int)) :
    process_answer now nowNext rec s.current_index a w =
      finish_test rec false none
        { w with msgs := w.msgs ++ [Msg.scoreExhausted s.current_index] } := by
  unfold process_answer
  simp only [hs]
  rw [if_pos hfsm, if_neg (by simp [hq]), if_neg (by simp), if_neg (by simp [hdl]),
    if_pos hex]

/-- `process_answer`, matching index, within the deadline, scored session still
in budget: advances the cursor, persists, and presents the next question. -/
theorem process_answer_advance (now nowNext : ℚ) (rec : Bool) (a : Nat)
    (w : World) (s : Session)
    (hfsm : w.fsm = some TState.WAIT_ANSWER)
    (hs : w.conv.session = some s)
    (hidx : s.current_index + 1 < w.conv.questions.length)
    (hdl : deadlineExpired now s.per_question_deadline = false)
    (hpos : (0 : Int) < (scoredSession s a
      (w.conv.questions.getD s.current_index default).correct_answer).remaining_score)
    (hopts : 2 ≤ countOptions (w.conv.questions.getD (s.current_index + 1) default)) :
    process_answer now nowNext rec s.current_index a w =
      { w with
        conv := { w.conv with session := some { scoredSession s a
            (w.conv.questions.getD s.current_index default).correct_answer with
            current_index := s.current_index + 1
            last_action_at := nowNext
            per_question_deadline := some (nowNext + (s.snapshot.seconds_per_question : ℚ)) } }
        redis := some { scoredSession s a
            (w.conv.questions.getD s.current_index default).correct_answer with
            current_index := s.current_index + 1
            last_action_at := nowNext
            per_question_deadline := some (nowNext + (s.snapshot.seconds_per_question : ℚ)) }
        fsm := some TState.WAIT_ANSWER
        msgs := w.msgs ++ [Msg.questionMsg (s.current_index + 1)] } := by
  have hq : w.conv.questions.isEmpty = false := by
    cases hqq : w.conv.questions with
    | nil => rw [hqq] at hidx; simp at hidx
    | cons x xs => simp [hqq]
  unfold process_answer
  simp only [hs]
  rw [if_pos hfsm, if_neg (by simp [hq]), if_neg (by simp), if_neg (by simp [hdl]),
    if_neg (not_le.mpr hpos)]
  rw [ask_next_question_present nowNext rec _ _ rfl (by simpa using hidx) (by simpa using hopts)]
  have hsnap : ∀ c, (scoredSession s a c).snapshot = s.snapshot := by
    intro c; unfold scoredSession; split <;> rfl
  simp [hsnap]

/-! ## C1 — critical questions -/

/-- Concrete world for the critical-question check: two questions, the first
critical with correct answer 1, session with a budget of 2, within deadline. -/
def wCritical : World :=
  { conv := { questions := [sampleQ "A" true 2, sampleQ "A" false 3],
              session := some sessW, fio := some "P" },
    fsm := some TState.WAIT_ANSWER, redis := some sessW, writes := [], msgs := [] }

/-- C1 counterexample: in `wCritical` the current question is critical, the
answer 2 is wrong, the score budget (2) stays positive after one decrement —
yet `process_answer` does NOT terminate the session: it advances to question 1,
stays in `WAIT_ANSWER`, sends no result message and writes nothing. The claim
"terminate immediately as failed" is false on the code (no `is_critical` check
exists in `process_answer`). -/
theorem C1_counterexample :
    (wCritical.conv.questions.getD 0 default).is_critical = true ∧
    sessW.current_index = 0 ∧
    sessW.remaining_score = 2 ∧
    (2 : Nat) ≠ (wCritical.conv.questions.getD 0 default).correct_answer ∧
    deadlineExpired 10 sessW.per_question_deadline = false ∧
    (process_answer 10 11 true 0 2 wCritical).conv.session =
      some { sessW with
        current_index := 1
        remaining_score := 1
        last_action_at := 11
        per_question_deadline := some 71 } ∧
    (process_answer 10 11 true 0 2 wCritical).fsm = some TState.WAIT_ANSWER ∧
    (process_answer 10 11 true 0 2 wCritical).msgs = [Msg.questionMsg 1] ∧
    (process_answer 10 11 true 0 2 wCritical).writes = [] := by
  with_unfolding_all decide

/-- C1 (amended) — an incorrect answer on a question flagged critical is scored
exactly like a non-critical one: `remaining_score` is decremented by 1 and,
while it stays positive, the session advances to the next question instead of
terminating; the `is_critical` flag has no effect on answer resolution. -/
theorem C1_critical_wrong_answer_continues (now nowNext : ℚ) (rec : Bool) (a : Nat)
    (w : World) (s : Session)
    (hfsm : w.fsm = some TState.WAIT_ANSWER)
    (hs : w.conv.session = some s)
    (hidx : s.current_index + 1 < w.conv.questions.length)
    (hcrit : (w.conv.questions.getD s.current_index default).is_critical = true)
    (hwrong : a ≠ (w.conv.questions.getD s.current_index default).correct_answer)
    (hdl : deadlineExpired now s.per_question_deadline = false)
    (hpos : (0 : Int) < s.remaining_score - 1)
    (hopts : 2 ≤ countOptions (w.conv.questions.getD (s.current_index + 1) default)) :
    ∃ s2 : Session,
      (process_answer now nowNext rec s.current_index a w).conv.session = some s2 ∧
      s2.current_index = s.current_index + 1 ∧
      s2.remaining_score = s.remaining_score - 1 ∧
      s2.correct_count = s.correct_count ∧
      (process_answer now nowNext rec s.current_index a w).fsm = some TState.WAIT_ANSWER ∧
      (process_answer now nowNext rec s.current_index a w).writes = w.writes ∧
      (process_answer now nowNext rec s.current_index a w).msgs =
        w.msgs ++ [Msg.questionMsg (s.current_index + 1)] := by
  have hscored : scoredSession s a (w.conv.questions.getD s.current_index default).correct_answer
      = { s with remaining_score := s.remaining_score - 1 } := by
    unfold scoredSession; rw [if_neg hwrong]
  rw [process_answer_advance now nowNext rec a w s hfsm hs hidx hdl
    (by rw [hscored]; exact hpos) hopts]
  exact ⟨_, rfl, rfl, by rw [hscored], by rw [hscored], rfl, rfl, rfl⟩

theorem C1_critical_wrong_answer_continues_witness :
    wCritical.fsm = some TState.WAIT_ANSWER ∧
    wCritical.conv.session = some sessW ∧
    sessW.current_index + 1 < wCritical.conv.questions.length ∧
    (wCritical.conv.questions.getD sessW.current_index default).is_critical = true ∧
    (2 : Nat) ≠ (wCritical.conv.questions.getD sessW.current_index default).correct_answer ∧
    deadlineExpired 10 sessW.per_question_deadline = false ∧
    (0 : Int) < sessW.remaining_score - 1 ∧
    2 ≤ countOptions (wCritical.conv.questions.getD (sessW.current_index + 1) default) ∧
    (∃ s2 : Session,
      (process_answer 10 11 true sessW.current_index 2 wCritical).conv.session = some s2 ∧
      s2.current_index = sessW.current_index + 1 ∧
      s2.remaining_score = sessW.remaining_score - 1 ∧
      s2.correct_count = sessW.correct_count ∧
      (process_answer 10 11 true sessW.current_index 2 wCritical).fsm = some TState.WAIT_ANSWER ∧
      (process_answer 10 11 true sessW.current_index 2 wCritical).writes = wCritical.writes ∧
      (process_answer 10 11 true sessW.current_index 2 wCritical).msgs =
        wCritical.msgs ++ [Msg.questionMsg (sessW.current_index + 1)]) :=
  ⟨rfl, rfl, by decide, by decide, by decide, by with_unfolding_all decide,
   by decide, by decide,
   C1_critical_wrong_answer_continues 10 11 true 2 wCritical sessW rfl rfl
     (by decide) (by decide) (by decide) (by with_unfolding_all decide)
     (by decide) (by decide)⟩

/-! ## C8 — score exhaustion with M = 2 -/

/-- C8 — starting from a live session with `remaining_score = 2` (budget M=2),
two wrong answers in a row with no correct answer in between end the session as
failed immediately after the second wrong answer: cursor went 2→1→0, the
score-exhausted edit and the failure result are sent, both stores are cleared,
and no third question is ever presented (the appended messages are exactly the
second question and the failure messages). -/
theorem C8_two_wrong_answers_exhaust (now1 now2 now3 now4 : ℚ) (rec : Bool) (a1 a2 : Nat)
    (w : World) (s : Session)
    (hfsm : w.fsm = some TState.WAIT_ANSWER)
    (hs : w.conv.session = some s)
    (hscore : s.remaining_score = 2)
    (hidx : s.current_index + 1 < w.conv.questions.length)
    (hdl1 : deadlineExpired now1 s.per_question_deadline = false)
    (hwrong1 : a1 ≠ (w.conv.questions.getD s.current_index default).correct_answer)
    (hopts : 2 ≤ countOptions (w.conv.questions.getD (s.current_index + 1) default))
    (hdl2 : deadlineExpired now3 (some (now2 + (s.snapshot.seconds_per_question : ℚ))) = false)
    (hwrong2 : a2 ≠ (w.conv.questions.getD (s.current_index + 1) default).correct_answer) :
    process_answer now3 now4 rec (s.current_index + 1) a2
        (process_answer now1 now2 rec s.current_index a1 w) =
      { conv := ConvData.empty, fsm := none, redis := none, writes := w.writes,
        msgs := w.msgs ++ [Msg.questionMsg (s.current_index + 1),
          Msg.scoreExhausted (s.current_index + 1), Msg.saveWarning,
          Msg.result false s.correct_count w.conv.questions.length] } := by
  have hscored1 : scoredSession s a1 (w.conv.questions.getD s.current_index default).correct_answer
      = { s with remaining_score := s.remaining_score - 1 } := by
    unfold scoredSession; rw [if_neg hwrong1]
  rw [process_answer_advance now1 now2 rec a1 w s hfsm hs hidx hdl1
    (by rw [hscored1]; show (0 : Int) < s.remaining_score - 1; rw [hscore]; norm_num) hopts]
  set sAdv : Session := { scoredSession s a1
      (w.conv.questions.getD s.current_index default).correct_answer with
    current_index := s.current_index + 1
    last_action_at := now2
    per_question_deadline := some (now2 + (s.snapshot.seconds_per_question : ℚ)) } with hsAdv
  have hAdvScore : sAdv.remaining_score = 1 := by
    rw [hsAdv, hscored1]; show s.remaining_score - 1 = 1; rw [hscore]; norm_num
  have hAdvCount : sAdv.correct_count = s.correct_count := by
    rw [hsAdv, hscored1]
  refine Eq.trans (process_answer_exhaust now3 now4 rec a2 _ sAdv rfl rfl ?_ ?_ ?_) ?_
  · show w.conv.questions.isEmpty = false
    cases hqq : w.conv.questions with
    | nil => rw [hqq] at hidx; simp at hidx
    | cons x xs => simp [hqq]
  · exact hdl2
  · show (scoredSession sAdv a2 _).remaining_score ≤ (0 : Int)
    unfold scoredSession
    rw [if_neg (by simpa using hwrong2)]
    show sAdv.remaining_score - 1 ≤ (0 : Int)
    rw [hAdvScore]
    norm_num
  · have hscored1n := hscored1
    rw [List.getD_eq_getElem?_getD] at hscored1n
    rw [finish_test_eval _ false none _ sAdv rfl]
    rw [finishCallBindsOk_eq_false]
    simp [hAdvCount, hscored1n]

/-! ## C10 — sessions created with max_errors = 0 -/

/-- C10 — with `max_errors = 0` the session `prepare_test` creates starts with
`remaining_score = 0`, and resolving the very first answer — whatever option
`a` was chosen, correct or not — terminates the session as failed: the
exhaustion check `remaining_score <= 0` runs after every resolved answer, so
such a session never reaches a second question or a passed outcome. -/
theorem C10_zero_budget_first_answer_fails (noww nowAsk now1 now2 : ℚ) (cfg : AdminConfig)
    (ltt : Option ℚ) (pool : List Question) (r : Rand) (rec : Bool) (a : Nat) (w : World)
    (hM : cfg.max_errors = 0)
    (hred : w.redis = none)
    (hcool : ∀ t, ltt = some t → ¬((noww - t) / 3600 < (cfg.retry_hours : ℚ)))
    (hN : 1 ≤ cfg.num_questions)
    (hlen : cfg.num_questions ≤ (distribute_questions_by_category r pool cfg.num_questions).length)
    (hopts : 2 ≤ countOptions
      ((distribute_questions_by_category r pool cfg.num_questions).getD 0 default))
    (hdl : deadlineExpired now1 (some (nowAsk + (cfg.seconds_per_question : ℚ))) = false) :
    process_answer now1 now2 rec 0 a (prepare_test noww nowAsk cfg ltt pool r rec w) =
      { conv := ConvData.empty, fsm := none, redis := none, writes := w.writes,
        msgs := w.msgs ++ [Msg.testStarted, Msg.questionMsg 0, Msg.scoreExhausted 0,
          Msg.saveWarning,
          Msg.result false 0 (distribute_questions_by_category r pool cfg.num_questions).length] } := by
  have hprep : prepare_test noww nowAsk cfg ltt pool r rec w =
      ask_next_question nowAsk rec
        { w with
          conv := { w.conv with
            questions := distribute_questions_by_category r pool cfg.num_questions
            session := some (initialSession noww cfg w.conv.fio
              (distribute_questions_by_category r pool cfg.num_questions)) }
          redis := some (initialSession noww cfg w.conv.fio
            (distribute_questions_by_category r pool cfg.num_questions))
          fsm := some TState.ASKING
          msgs := w.msgs ++ [Msg.testStarted] } := by
    unfold prepare_test
    rw [if_neg (by simp [hred])]
    simp only []
    rw [if_neg (Nat.not_lt.mpr hlen)]
    split
    · next hcond =>
        exact absurd hcond (by
          revert hcool
          cases ltt with
          | none => intro _; simp
          | some t => intro hcool; simpa using hcool t rfl)
    · rfl
  rw [hprep]
  rw [ask_next_question_present nowAsk rec _ _ rfl (by simpa using Nat.lt_of_lt_of_le hN hlen)
    (by simpa using hopts)]
  have hne : (distribute_questions_by_category r pool cfg.num_questions).isEmpty = false := by
    have hpos : 0 < (distribute_questions_by_category r pool cfg.num_questions).length :=
      Nat.lt_of_lt_of_le hN hlen
    cases hqq : distribute_questions_by_category r pool cfg.num_questions with
    | nil => rw [hqq] at hpos; simp at hpos
    | cons x xs => simp [hqq]
  refine Eq.trans (process_answer_exhaust now1 now2 rec a
    { w with
      conv := { w.conv with
        questions := distribute_questions_by_category r pool cfg.num_questions
        session := some { initialSession noww cfg w.conv.fio
            (distribute_questions_by_category r pool cfg.num_questions) with
          per_question_deadline := some (nowAsk + ((initialSession noww cfg w.conv.fio
            (distribute_questions_by_category r pool cfg.num_questions)).snapshot.seconds_per_question : ℚ))
          last_action_at := nowAsk } }
      redis := some { initialSession noww cfg w.conv.fio
          (distribute_questions_by_category r pool cfg.num_questions) with
        per_question_deadline := some (nowAsk + ((initialSession noww cfg w.conv.fio
          (distribute_questions_by_category r pool cfg.num_questions)).snapshot.seconds_per_question : ℚ))
        last_action_at := nowAsk }
      fsm := some TState.WAIT_ANSWER
      msgs := w.msgs ++ [Msg.testStarted] ++ [Msg.questionMsg 0] }
    { initialSession noww cfg w.conv.fio
        (distribute_questions_by_category r pool cfg.num_questions) with
      per_question_deadline := some (nowAsk + ((initialSession noww cfg w.conv.fio
        (distribute_questions_by_category r pool cfg.num_questions)).snapshot.seconds_per_question : ℚ))
      last_action_at := nowAsk }
    rfl rfl hne ?_ ?_) ?_
  · exact hdl
  · show (scoredSession _ a _).remaining_score ≤ (0 : Int)
    unfold scoredSession
    split <;> simp [initialSession, hM]
  · rw [finish_test_eval _ false none _ _ rfl]
    rw [finishCallBindsOk_eq_false]
    simp [initialSession]

theorem C8_two_wrong_answers_exhaust_witness :
    wActive.fsm = some TState.WAIT_ANSWER ∧
    wActive.conv.session = some sessW ∧
    sessW.remaining_score = 2 ∧
    sessW.current_index + 1 < wActive.conv.questions.length ∧
    deadlineExpired 10 sessW.per_question_deadline = false ∧
    (2 : Nat) ≠ (wActive.conv.questions.getD sessW.current_index default).correct_answer ∧
    2 ≤ countOptions (wActive.conv.questions.getD (sessW.current_index + 1) default) ∧
    deadlineExpired 20 (some (11 + (sessW.snapshot.seconds_per_question : ℚ))) = false ∧
    (2 : Nat) ≠ (wActive.conv.questions.getD (sessW.current_index + 1) default).correct_answer ∧
    process_answer 20 21 true (sessW.current_index + 1) 2
        (process_answer 10 11 true sessW.current_index 2 wActive) =
      { conv := ConvData.empty, fsm := none, redis := none, writes := wActive.writes,
        msgs := wActive.msgs ++ [Msg.questionMsg (sessW.current_index + 1),
          Msg.scoreExhausted (sessW.current_index + 1), Msg.saveWarning,
          Msg.result false sessW.correct_count wActive.conv.questions.length] } :=
  ⟨rfl, rfl, by decide, by decide, by with_unfolding_all decide, by decide, by decide,
   by with_unfolding_all decide, by decide,
   C8_two_wrong_answers_exhaust 10 11 20 21 true 2 2 wActive sessW rfl rfl (by decide)
     (by decide) (by with_unfolding_all decide) (by decide) (by decide)
     (by with_unfolding_all decide) (by decide)⟩

/-- Config with a zero error budget, used by the C10 witness. -/
def cfgZero : AdminConfig :=
  { num_questions := 1, max_errors := 0, retry_hours := 24, seconds_per_question := 60 }

/-- Two-question pool for the C10 witness. -/
def poolZero : List Question := [sampleQ "A" false 2, sampleQ "A" false 3]

/-- Fresh world (no active session) for the C10 witness. -/
def wFresh : World :=
  { conv := { questions := [], session := none, fio := some "P" },
    fsm := some TState.PREPARE_TEST, redis := none, writes := [], msgs := [] }

theorem C10_zero_budget_first_answer_fails_witness :
    cfgZero.max_errors = 0 ∧
    wFresh.redis = none ∧
    1 ≤ cfgZero.num_questions ∧
    cfgZero.num_questions ≤
      (distribute_questions_by_category detRand poolZero cfgZero.num_questions).length ∧
    2 ≤ countOptions
      ((distribute_questions_by_category detRand poolZero cfgZero.num_questions).getD 0 default) ∧
    deadlineExpired 10 (some (0 + (cfgZero.seconds_per_question : ℚ))) = false ∧
    (1 : Nat) = (poolZero.getD 0 default).correct_answer ∧
    process_answer 10 11 true 0 1 (prepare_test 0 0 cfgZero none poolZero detRand true wFresh) =
      { conv := ConvData.empty, fsm := none, redis := none, writes := wFresh.writes,
        msgs := wFresh.msgs ++ [Msg.testStarted, Msg.questionMsg 0, Msg.scoreExhausted 0,
          Msg.saveWarning,
          Msg.result false 0
            (distribute_questions_by_category detRand poolZero cfgZero.num_questions).length] } :=
  ⟨rfl, rfl, by decide, by decide, by decide, by with_unfolding_all decide, by decide,
   C10_zero_budget_first_answer_fails 0 0 10 11 cfgZero none poolZero detRand true 1 wFresh
     rfl rfl (fun t h => nomatch h) (by decide) (by decide) (by decide)
     (by with_unfolding_all decide)⟩

/-! ## C2 — answer/timeout race determinism -/

/-- After `ask_next_question` on a live session the stored session is either
gone (finish/error paths) or still at the same cursor (the presenting path). -/
theorem ask_next_session_none_or_same (now : ℚ) (rec : Bool) (w : World) (s : Session)
    (hs : w.conv.session = some s) :
    (ask_next_question now rec w).conv.session = none ∨
    ∃ s', (ask_next_question now rec w).conv.session = some s' ∧
      s'.current_index = s.current_index := by
  unfold ask_next_question
  simp only [hs]
  by_cases hq : w.conv.questions.isEmpty
  · left; rw [if_pos hq]; rfl
  · rw [if_neg hq]
    by_cases hlen : w.conv.questions.length ≤ s.current_index
    · left
      rw [if_pos hlen]
      have := (finish_test_clears rec true none w).1
      rw [this]
      rfl
    · rw [if_neg hlen]
      by_cases hopt : countOptions (w.conv.questions.getD s.current_index default) < 2
      · left; rw [if_pos hopt]; rfl
      · right
        rw [if_neg hopt]
        exact ⟨_, rfl, rfl⟩

/-- A `process_answer` call that actually resolves question `i` (live session at
cursor `i`, awaited answer) leaves the stored session either gone (finished) or
advanced past `i`. -/
theorem process_answer_session_none_or_advanced (now nowNext : ℚ) (rec : Bool) (a : Nat)
    (w : World) (s : Session)
    (hfsm : w.fsm = some TState.WAIT_ANSWER)
    (hs : w.conv.session = some s)
    (hq : w.conv.questions.isEmpty = false) :
    (process_answer now nowNext rec s.current_index a w).conv.session = none ∨
    ∃ s', (process_answer now nowNext rec s.current_index a w).conv.session = some s' ∧
      s.current_index < s'.current_index := by
  unfold process_answer
  simp only [hs]
  rw [if_pos hfsm, if_neg (by simp [hq]), if_neg (by simp)]
  by_cases hdl : deadlineExpired now s.per_question_deadline
  · rw [if_pos hdl]
    left
    have := (finish_test_clears rec false (some (s.current_index + 1)) w).1
    rw [this]
    rfl
  · rw [if_neg hdl]
    by_cases hex : (scoredSession s a
        (w.conv.questions.getD s.current_index default).correct_answer).remaining_score ≤ (0 : Int)
    · rw [if_pos hex]
      left
      have := (finish_test_clears rec false none
        { w with msgs := w.msgs ++ [Msg.scoreExhausted s.current_index] }).1
      rw [this]
      rfl
    · rw [if_neg hex]
      have hcases := ask_next_session_none_or_same nowNext rec
        { w with
          conv := { w.conv with session := some { scoredSession s a
              (w.conv.questions.getD s.current_index default).correct_answer with
            current_index := s.current_index + 1
            last_action_at := now
            per_question_deadline := none } }
          redis := some { scoredSession s a
              (w.conv.questions.getD s.current_index default).correct_answer with
            current_index := s.current_index + 1
            last_action_at := now
            per_question_deadline := none } } _ rfl
      rcases hcases with h | ⟨s', hs', hidx⟩
      · left; exact h
      · right; exact ⟨s', hs', by rw [hidx]; exact Nat.lt_succ_self _⟩

/-- `check_timeout` is a no-op on a world whose stored session is gone or has
moved past the armed question index. -/
theorem check_timeout_noop_of_resolved (now : ℚ) (rec : Bool) (qi : Nat) (d : ℚ) (w1 : World)
    (h : w1.conv.session = none ∨ ∃ s', w1.conv.session = some s' ∧ qi < s'.current_index) :
    check_timeout now rec qi d w1 = w1 := by
  unfold check_timeout
  rcases h with h | ⟨s', hs', hlt⟩
  · simp only [h]
    rw [if_neg (by simp)]
    split <;> rfl
  · simp only [hs']
    rw [if_pos (by simpa using hlt)]

/-- `process_answer` is a no-op once the FSM state is cleared (the router no
longer dispatches the handler). -/
theorem process_answer_noop_of_finished (now nowNext : ℚ) (rec : Bool) (qi a : Nat)
    (w2 : World) (h : w2.fsm = none) :
    process_answer now nowNext rec qi a w2 = w2 := by
  unfold process_answer
  rw [if_neg (by simp [h])]

/-- `check_timeout` firing on a live session still at the armed index, at or
after the deadline, finishes the test. -/
theorem check_timeout_fires (now : ℚ) (rec : Bool) (d : ℚ) (w : World) (s : Session)
    (hs : w.conv.session = some s) (hd : d ≤ now) :
    check_timeout now rec s.current_index d w =
      finish_test rec false (some (s.current_index + 1))
        { w with msgs := w.msgs ++ [Msg.timeoutExpired] } := by
  unfold check_timeout
  simp only [hs]
  rw [if_neg (by simp), if_pos hd]
  simp

/-- C2 — the answer/timeout race on question index `i` is resolved exactly
once: if `process_answer` for index `i` runs first, the timeout watcher armed
for `(i, d)` observes the changed state and is a strict no-op; if the timeout
fires first (at a time past its deadline) and finishes the session, a later
answer for index `i` is a strict no-op — never do both paths take effect. -/
theorem C2_answer_timeout_race (t1 t2 t3 t4 t5 t6 : ℚ) (r1 r2 r3 : Bool) (a1 a2 : Nat)
    (d : ℚ) (w : World) (s : Session)
    (hfsm : w.fsm = some TState.WAIT_ANSWER)
    (hs : w.conv.session = some s)
    (hq : w.conv.questions.isEmpty = false) :
    (check_timeout t3 r2 s.current_index d (process_answer t1 t2 r1 s.current_index a1 w) =
      process_answer t1 t2 r1 s.current_index a1 w) ∧
    (d ≤ t4 →
      process_answer t5 t6 r3 s.current_index a2 (check_timeout t4 r2 s.current_index d w) =
        check_timeout t4 r2 s.current_index d w) := by
  constructor
  · exact check_timeout_noop_of_resolved t3 r2 s.current_index d _
      (process_answer_session_none_or_advanced t1 t2 r1 a1 w s hfsm hs hq)
  · intro hd
    rw [check_timeout_fires t4 r2 d w s hs hd]
    exact process_answer_noop_of_finished t5 t6 r3 s.current_index a2 _
      (finish_test_clears r2 false (some (s.current_index + 1)) _).2

theorem C2_answer_timeout_race_witness :
    wActive.fsm = some TState.WAIT_ANSWER ∧
    wActive.conv.session = some sessW ∧
    wActive.conv.questions.isEmpty = false ∧
    (60 : ℚ) ≤ 100 ∧
    (check_timeout 100 true sessW.current_index 60
        (process_answer 10 11 true sessW.current_index 1 wActive) =
      process_answer 10 11 true sessW.current_index 1 wActive) ∧
    (process_answer 110 111 true sessW.current_index 1
        (check_timeout 100 true sessW.current_index 60 wActive) =
      check_timeout 100 true sessW.current_index 60 wActive) :=
  ⟨rfl, rfl, rfl, by norm_num,
   (C2_answer_timeout_race 10 11 100 100 110 111 true true true 1 1 60 wActive sessW
     rfl rfl rfl).1,
   (C2_answer_timeout_race 10 11 100 100 110 111 true true true 1 1 60 wActive sessW
     rfl rfl rfl).2 (by norm_num)⟩

/-! ## Facts about the category grouping -/

theorem mem_categoryNames {c : String} : ∀ {qs : List Question},
    c ∈ categoryNames qs ↔ ∃ q ∈ qs, q.category = c := by
  intro qs
  induction qs with
  | nil => simp [categoryNames]
  | cons q rest ih =>
      simp only [categoryNames, List.mem_cons, List.mem_filter]
      constructor
      · rintro (h | ⟨h, _⟩)
        · exact ⟨q, Or.inl rfl, h.symm⟩
        · obtain ⟨q', hq', hc⟩ := ih.1 h
          exact ⟨q', Or.inr hq', hc⟩
      · rintro ⟨q', hq', hc⟩
        rcases hq' with h | h
        · subst h; exact Or.inl hc.symm
        · by_cases hcq : c = q.category
          · exact Or.inl hcq
          · exact Or.inr ⟨ih.2 ⟨q', h, hc⟩, by simpa using hcq⟩

theorem categoryNames_nodup : ∀ (qs : List Question), (categoryNames qs).Nodup := by
  intro qs
  induction qs with
  | nil => simp [categoryNames]
  | cons q rest ih =>
      simp only [categoryNames]
      refine List.Nodup.cons ?_ (List.Nodup.filter _ ih)
      intro hmem
      have := (List.mem_filter.1 hmem).2
      simp at this

theorem categoryNames_ne_nil {qs : List Question} (h : qs ≠ []) : categoryNames qs ≠ [] := by
  cases qs with
  | nil => exact absurd rfl h
  | cons q rest => simp [categoryNames]

theorem catSize_pos {qs : List Question} {c : String} (h : c ∈ categoryNames qs) :
    0 < catSize qs c := by
  obtain ⟨q, hq, hc⟩ := mem_categoryNames.1 h
  have : q ∈ categoryBucket qs c := by
    rw [categoryBucket, List.mem_filter]
    exact ⟨hq, by simp [hc]⟩
  calc 0 < 1 := Nat.one_pos
    _ ≤ catSize qs c := List.length_pos_of_mem this

theorem bucket_category {qs : List Question} {c : String} {q : Question}
    (h : q ∈ categoryBucket qs c) : q.category = c := by
  have := (List.mem_filter.1 h).2
  simpa using this

/-- The buckets of the distinct category names partition the pool. -/
theorem flatten_buckets_perm : ∀ (names : List String) (qs : List Question),
    names.Nodup → (∀ q ∈ qs, q.category ∈ names) →
    List.Perm (names.map (fun c => categoryBucket qs c)).flatten qs := by
  intro names
  induction names with
  | nil =>
      intro qs _ hcov
      have : qs = [] := by
        cases qs with
        | nil => rfl
        | cons q rest => exact absurd (hcov q (List.mem_cons_self q rest)) (by simp)
      simp [this]
  | cons c cs ih =>
      intro qs hnd hcov
      have hnd' := List.nodup_cons.1 hnd
      have hrest : ∀ c' ∈ cs, categoryBucket qs c' =
          categoryBucket (qs.filter (fun q => !(q.category == c))) c' := by
        intro c' hc'
        have hne : c' ≠ c := fun h => hnd'.1 (h ▸ hc')
        rw [categoryBucket, categoryBucket, List.filter_filter]
        apply List.filter_congr
        intro q _
        by_cases hqc : q.category = c'
        · simp [hqc, hne]
        · simp [hqc]
      have hcov' : ∀ q ∈ qs.filter (fun q => !(q.category == c)), q.category ∈ cs := by
        intro q hq
        obtain ⟨hq1, hq2⟩ := List.mem_filter.1 hq
        have hne : q.category ≠ c := by simpa using hq2
        rcases List.mem_cons.1 (hcov q hq1) with h | h
        · exact absurd h hne
        · exact h
      have ihh := ih (qs.filter (fun q => !(q.category == c))) hnd'.2 hcov'
      have h1 : ((c :: cs).map (fun c => categoryBucket qs c)).flatten
          = categoryBucket qs c ++ (cs.map (fun c => categoryBucket qs c)).flatten := by
        simp
      rw [h1]
      have h2 : List.Perm (cs.map (fun c => categoryBucket qs c)).flatten
          (qs.filter (fun q => !(q.category == c))) := by
        have hmaps : (cs.map (fun c' => categoryBucket qs c')) =
            (cs.map (fun c' => categoryBucket (qs.filter (fun q => !(q.category == c))) c')) :=
          List.map_congr_left hrest
        rw [hmaps]
        exact ihh
      refine List.Perm.trans (List.Perm.append_left _ h2) ?_
      rw [categoryBucket]
      exact List.filter_append_perm _ qs

/-- The distinct-name buckets of a pool rearrange the pool itself. -/
theorem flatten_categoryBuckets_perm (qs : List Question) :
    List.Perm ((categoryNames qs).map (fun c => categoryBucket qs c)).flatten qs :=
  flatten_buckets_perm (categoryNames qs) qs (categoryNames_nodup qs)
    (fun q hq => mem_categoryNames.2 ⟨q, hq, rfl⟩)

theorem sum_catSize (qs : List Question) :
    ((categoryNames qs).map (fun c => catSize qs c)).sum = qs.length := by
  have h := (flatten_categoryBuckets_perm qs).length_eq
  rw [List.length_flatten] at h
  simpa [catSize, Function.comp] using h

/-! ## Quota and selection lemmas -/

theorem foldl_clampStep_id (names : List String) (avail : String → Nat) :
    ∀ (l : List String) (q : String → Nat), (∀ c ∈ l, q c ≤ avail c) →
      l.foldl (clampStep names avail) q = q := by
  intro l
  induction l with
  | nil => intro q _; rfl
  | cons c cs ih =>
      intro q hq
      have hstep : clampStep names avail q c = q := by
        unfold clampStep
        rw [if_neg (Nat.not_lt.mpr (hq c (List.mem_cons_self c cs)))]
      rw [List.foldl_cons, hstep]
      exact ih q (fun c' hc' => hq c' (List.mem_cons_of_mem _ hc'))

/-- The clamping loop is the identity when no quota exceeds its category size
(the only situation the exact quota arithmetic can produce, see below). -/
theorem clampPass_id (names : List String) (avail q : String → Nat)
    (h : ∀ c ∈ names, q c ≤ avail c) : clampPass names avail q = q :=
  foldl_clampStep_id names avail names q h

/-- With `T = total` every quota is exactly the category size: the base quotas
are already the sizes, there is no remainder and no clamping. -/
theorem quotasFor_full (qs : List Question) (hne : qs ≠ []) :
    quotasFor qs qs.length = fun c => catSize qs c := by
  have htot : 0 < qs.length := List.length_pos.2 hne
  have hbase : baseFun qs qs.length = fun c => catSize qs c := by
    funext c
    unfold baseFun baseQuota
    exact Nat.mul_div_cancel_left _ htot
  have hrem : remainderFor qs qs.length = 0 := by
    unfold remainderFor
    rw [hbase, sum_catSize, Nat.sub_self]
  unfold quotasFor
  rw [hrem, hbase]
  exact clampPass_id _ _ _ (fun c _ => le_refl _)

/-- The selection loop of the distributor appends, per category name in order,
the category's sample (empty when the quota is 0). -/
theorem foldl_select_eq_flatten (r : Rand) (qs : List Question) (quotas : String → Nat) :
    ∀ (names : List String) (acc : List Question),
      names.foldl (fun acc c =>
        let catQs := categoryBucket qs c
        if 0 < quotas c then acc ++ r.sample catQs (min (quotas c) catQs.length) else acc) acc
      = acc ++ (names.map (fun c =>
          if 0 < quotas c then r.sample (categoryBucket qs c)
            (min (quotas c) (categoryBucket qs c).length) else [])).flatten := by
  intro names
  induction names with
  | nil => intro acc; simp
  | cons c cs ih =>
      intro acc
      rw [List.foldl_cons, ih]
      by_cases h : 0 < quotas c
      · simp [h]
      · simp [h]

theorem flatten_map_perm {α β : Type} (l : List α) (f g : α → List β)
    (h : ∀ a ∈ l, List.Perm (f a) (g a)) :
    List.Perm (l.map f).flatten (l.map g).flatten := by
  induction l with
  | nil => simp
  | cons a as ih =>
      simp only [List.map_cons, List.flatten_cons]
      exact List.Perm.append (h a (List.mem_cons_self a as))
        (ih (fun a' ha' => h a' (List.mem_cons_of_mem _ ha')))

/-- C4 — whenever the pool size is at most the target, the distributor returns
a permutation of the entire pool: every pool question exactly once, nothing
else. (Covers both the strict shortfall `len < target`, which hits the
`random.sample(questions, len(questions))` branch, and the boundary
`len = target`, where every per-category quota equals the category size.) -/
theorem C4_shortfall_full_permutation (r : Rand) (hr : r.Lawful) (pool : List Question)
    (T : Nat) (hne : pool ≠ []) (hle : pool.length ≤ T) :
    List.Perm (distribute_questions_by_category r pool T) pool := by
  unfold distribute_questions_by_category
  rw [if_neg (by simpa using hne)]
  by_cases hlt : pool.length < T
  · rw [if_pos hlt]
    obtain ⟨hlen, hsub⟩ := hr.1 pool pool.length (le_refl _)
    exact hsub.perm_of_length_le (le_of_eq hlen.symm)
  · rw [if_neg hlt]
    have hTeq : T = pool.length := le_antisymm (Nat.not_lt.1 hlt) hle
    subst hTeq
    simp only [quotasFor_full pool hne]
    rw [foldl_select_eq_flatten]
    have hpicks : List.Perm ((categoryNames pool).map (fun c =>
        if 0 < catSize pool c then r.sample (categoryBucket pool c)
          (min (catSize pool c) (categoryBucket pool c).length) else [])).flatten pool := by
      refine List.Perm.trans
        (flatten_map_perm _ _ (fun c => categoryBucket pool c) ?_)
        (flatten_categoryBuckets_perm pool)
      intro c hc
      rw [if_pos (catSize_pos hc)]
      have hmin : min (catSize pool c) (categoryBucket pool c).length
          = (categoryBucket pool c).length := by
        simp [catSize]
      rw [hmin]
      obtain ⟨hlen, hsub⟩ := hr.1 (categoryBucket pool c) (categoryBucket pool c).length
        (le_refl _)
      exact hsub.perm_of_length_le (le_of_eq hlen.symm)
    have hsel : List.Perm (r.shuffle ([] ++ ((categoryNames pool).map (fun c =>
        if 0 < catSize pool c then r.sample (categoryBucket pool c)
          (min (catSize pool c) (categoryBucket pool c).length) else [])).flatten)) pool :=
      (hr.2 _).trans (by simpa using hpicks)
    rw [List.take_of_length_le (le_of_eq hsel.length_eq)]
    exact hsel

theorem C4_shortfall_full_permutation_witness :
    detRand.Lawful ∧ poolZero ≠ [] ∧ poolZero.length ≤ 3 ∧
    List.Perm (distribute_questions_by_category detRand poolZero 3) poolZero :=
  ⟨detRand_lawful, by decide, by decide,
   C4_shortfall_full_permutation detRand detRand_lawful poolZero 3 (by decide) (by decide)⟩

/-! ## Exact quota arithmetic -/

theorem sum_div_le (d : Nat) (hd : 0 < d) : ∀ (l : List Nat),
    (l.map (fun a => a / d)).sum ≤ l.sum / d := by
  intro l
  induction l with
  | nil => simp
  | cons a as ih =>
      simp only [List.map_cons, List.sum_cons]
      refine le_trans (Nat.add_le_add_left ih _) ?_
      rw [Nat.le_div_iff_mul_le hd, Nat.add_mul]
      exact Nat.add_le_add (Nat.div_mul_le_self a d) (Nat.div_mul_le_self _ d)

theorem sum_map_lt_sum_map {α : Type} (l : List α) (f g : α → Nat) (hne : l ≠ [])
    (h : ∀ a ∈ l, f a < g a) : (l.map f).sum < (l.map g).sum := by
  cases l with
  | nil => exact absurd rfl hne
  | cons a as =>
      simp only [List.map_cons, List.sum_cons]
      have h1 : f a < g a := h a (List.mem_cons_self a as)
      have h2 : (as.map f).sum ≤ (as.map g).sum :=
        List.sum_le_sum (fun a' ha' => le_of_lt (h a' (List.mem_cons_of_mem _ ha')))
      omega

theorem sum_baseQuota_le (qs : List Question) (T : Nat) (hne : qs ≠ []) :
    ((categoryNames qs).map (fun c => baseQuota T qs.length (catSize qs c))).sum ≤ T := by
  have htot : 0 < qs.length := List.length_pos.2 hne
  have h1 : (categoryNames qs).map (fun c => baseQuota T qs.length (catSize qs c))
      = ((categoryNames qs).map (fun c => T * catSize qs c)).map (fun a => a / qs.length) := by
    rw [List.map_map]; rfl
  rw [h1]
  refine le_trans (sum_div_le _ htot _) ?_
  have h2 : ((categoryNames qs).map (fun c => T * catSize qs c)).sum = T * qs.length := by
    rw [List.sum_map_mul_left, sum_catSize]
  rw [h2, Nat.mul_div_cancel _ htot]

/-- The rounding remainder is strictly smaller than the number of categories. -/
theorem remaining_lt_names_length (qs : List Question) (T : Nat) (hne : qs ≠ []) :
    T - ((categoryNames qs).map (fun c => baseQuota T qs.length (catSize qs c))).sum
      < (categoryNames qs).length := by
  have htot : 0 < qs.length := List.length_pos.2 hne
  have hnames : categoryNames qs ≠ [] := categoryNames_ne_nil hne
  have hstrict : ((categoryNames qs).map (fun c => T * catSize qs c)).sum
      < ((categoryNames qs).map (fun c =>
          qs.length * (baseQuota T qs.length (catSize qs c) + 1))).sum := by
    refine sum_map_lt_sum_map _ _ _ hnames ?_
    intro c _
    have hmod := Nat.div_add_mod (T * catSize qs c) qs.length
    have hlt := Nat.mod_lt (T * catSize qs c) htot
    rw [baseQuota, Nat.mul_succ]
    omega
  have hTtot : T * qs.length <
      qs.length * (((categoryNames qs).map
        (fun c => baseQuota T qs.length (catSize qs c))).sum + (categoryNames qs).length) := by
    have hL : ((categoryNames qs).map (fun c => T * catSize qs c)).sum = T * qs.length := by
      rw [List.sum_map_mul_left, sum_catSize]
    have hR : ((categoryNames qs).map (fun c =>
        qs.length * (baseQuota T qs.length (catSize qs c) + 1))).sum
        = qs.length * (((categoryNames qs).map
            (fun c => baseQuota T qs.length (catSize qs c))).sum + (categoryNames qs).length) := by
      rw [List.sum_map_mul_left]
      congr 1
      induction categoryNames qs with
      | nil => simp
      | cons c cs ih => simp [ih]; omega
    rw [← hL, ← hR]
    exact hstrict
  have hT' : T < ((categoryNames qs).map
      (fun c => baseQuota T qs.length (catSize qs c))).sum + (categoryNames qs).length := by
    by_contra hcon
    push_neg at hcon
    have hmul : qs.length * (((categoryNames qs).map
        (fun c => baseQuota T qs.length (catSize qs c))).sum + (categoryNames qs).length)
        ≤ qs.length * T := Nat.mul_le_mul_left _ hcon
    rw [Nat.mul_comm qs.length T] at hmul
    omega
  have hk : 0 < (categoryNames qs).length := List.length_pos.2 hnames
  omega

/-- Loop characterization: the remainder loop adds, to each category, the
number of loop indices whose (cyclic) position in the sorted list names it. -/
theorem addExtras_eq (sorted : List String) : ∀ (r i : Nat) (q : String → Nat) (c : String),
    addExtras sorted r i q c
      = q c + ((List.range' i r).filter
          (fun j => sorted.getD (j % sorted.length) "" == c)).length := by
  intro r
  induction r with
  | zero => intro i q c; simp [addExtras]
  | succ n ih =>
      intro i q c
      show addExtras sorted n (i + 1) (bump q (sorted.getD (i % sorted.length) "")) c = _
      rw [ih, List.range'_succ i n 1]
      by_cases hc : sorted.getD (i % sorted.length) "" = c
      · rw [List.filter_cons_of_pos (by simpa using hc)]
        simp only [bump, List.length_cons]
        rw [if_pos hc.symm]
        omega
      · rw [List.filter_cons_of_neg (by simpa using hc)]
        simp only [bump]
        rw [if_neg (fun h => hc h.symm)]

/-- When the loop runs at most once around (indices `i..i+r-1` all below the
list length) and the sorted list has no duplicates, no category is hit twice. -/
theorem hitCount_le_one (sorted : List String) (hnd : sorted.Nodup) :
    ∀ (r i : Nat), i + r ≤ sorted.length → ∀ (c : String),
      ((List.range' i r).filter
        (fun j => sorted.getD (j % sorted.length) "" == c)).length ≤ 1 := by
  intro r
  induction r with
  | zero => intro i _ c; simp
  | succ n ih =>
      intro i hir c
      rw [List.range'_succ i n 1]
      have hik : i < sorted.length := by omega
      by_cases hc : sorted.getD (i % sorted.length) "" = c
      · rw [List.filter_cons_of_pos (by simpa using hc)]
        have hzero : ((List.range' (i + 1) n).filter
            (fun j => sorted.getD (j % sorted.length) "" == c)).length = 0 := by
          rw [List.length_eq_zero]
          rw [List.filter_eq_nil_iff]
          intro j hj
          obtain ⟨hj1, hj2⟩ := List.mem_range'_1.1 hj
          have hjk : j < sorted.length := by omega
          simp only [beq_iff_eq]
          intro hcj
          have hieq : i % sorted.length = i := Nat.mod_eq_of_lt hik
          have hjeq : j % sorted.length = j := Nat.mod_eq_of_lt hjk
          rw [hjeq] at hcj
          rw [hieq] at hc
          rw [List.getD_eq_getElem sorted "" hjk] at hcj
          rw [List.getD_eq_getElem sorted "" hik] at hc
          have := (List.Nodup.getElem_inj_iff hnd).1 (hcj.trans hc.symm)
          omega
        rw [List.length_cons, hzero]
      · rw [List.filter_cons_of_neg (by simpa using hc)]
        exact ih (i + 1) (by omega) c

theorem sum_bump (names : List String) (hnd : names.Nodup) (q : String → Nat) (c : String)
    (hc : c ∈ names) : (names.map (bump q c)).sum = (names.map q).sum + 1 := by
  induction names with
  | nil => simp at hc
  | cons a as ih =>
      have hnd' := List.nodup_cons.1 hnd
      rcases List.mem_cons.1 hc with h | h
      · have hrest : as.map (bump q c) = as.map q := by
          apply List.map_congr_left
          intro a' ha'
          have hne' : a' ≠ c := by
            intro hh
            have hca : c ∈ as := hh ▸ ha'
            exact hnd'.1 (h ▸ hca)
          simp [bump, hne']
        simp only [List.map_cons, List.sum_cons, hrest, bump]
        rw [if_pos h.symm]
        omega
      · have hne : a ≠ c := fun hh => hnd'.1 (hh ▸ h)
        simp only [List.map_cons, List.sum_cons, ih hnd'.2 h, bump]
        rw [if_neg hne]
        omega

theorem sum_addExtras (names : List String) (hnd : names.Nodup) (sorted : List String)
    (hsub : ∀ x ∈ sorted, x ∈ names) (hk : sorted ≠ []) :
    ∀ (r i : Nat) (q : String → Nat),
      (names.map (addExtras sorted r i q)).sum = (names.map q).sum + r := by
  intro r
  induction r with
  | zero =>
      intro i q
      show (names.map q).sum = (names.map q).sum + 0
      omega
  | succ n ih =>
      intro i q
      have hklen : 0 < sorted.length := List.length_pos.2 hk
      have hmem : sorted.getD (i % sorted.length) "" ∈ names := by
        apply hsub
        rw [List.getD_eq_getElem sorted "" (Nat.mod_lt i hklen)]
        exact List.getElem_mem _
      show (names.map (addExtras sorted n (i + 1) (bump q (sorted.getD (i % sorted.length) "")))).sum = _
      rw [ih, sum_bump names hnd q _ hmem]
      omega

/-- The exact-arithmetic quotas: they sum to `T`, sit within one of the base
quota (hence within one of the real-valued ideal), and never exceed the
category size — the clamping loop never fires. -/
theorem quotasFor_props (qs : List Question) (T : Nat) (hne : qs ≠ []) (hT : T ≤ qs.length) :
    (((categoryNames qs).map (quotasFor qs T)).sum = T) ∧
    ∀ c ∈ categoryNames qs,
      baseFun qs T c ≤ quotasFor qs T c ∧
      quotasFor qs T c ≤ baseFun qs T c + 1 ∧
      quotasFor qs T c ≤ catSize qs c := by
  have htot : 0 < qs.length := List.length_pos.2 hne
  have hnames : categoryNames qs ≠ [] := categoryNames_ne_nil hne
  have hnd := categoryNames_nodup qs
  by_cases hTfull : T = qs.length
  · subst hTfull
    rw [quotasFor_full qs hne]
    refine ⟨sum_catSize qs, ?_⟩
    intro c hc
    have hbase : baseFun qs qs.length c = catSize qs c := by
      unfold baseFun baseQuota
      exact Nat.mul_div_cancel_left _ htot
    refine ⟨le_of_eq hbase, ?_, le_refl (catSize qs c)⟩
    show (fun c => catSize qs c) c ≤ baseFun qs qs.length c + 1
    rw [hbase]
    exact Nat.le_succ _
  · have hTlt : T < qs.length := lt_of_le_of_ne hT hTfull
    have hperm : List.Perm (sortedCats qs T) (categoryNames qs) :=
      List.mergeSort_perm _ _
    have hsortnd : (sortedCats qs T).Nodup := hperm.nodup_iff.2 hnd
    have hsortlen : (sortedCats qs T).length = (categoryNames qs).length := hperm.length_eq
    have hsub : ∀ x ∈ sortedCats qs T, x ∈ categoryNames qs := fun x hx => hperm.mem_iff.1 hx
    have hsort_ne : sortedCats qs T ≠ [] := by
      intro h
      exact hnames ((h ▸ hperm).symm.eq_nil)
    have hRk : remainderFor qs T < (categoryNames qs).length :=
      remaining_lt_names_length qs T hne
    have hhit : ∀ c, ((List.range' 0 (remainderFor qs T)).filter
        (fun j => (sortedCats qs T).getD (j % (sortedCats qs T).length) "" == c)).length ≤ 1 := by
      intro c
      exact hitCount_le_one (sortedCats qs T) hsortnd (remainderFor qs T) 0 (by omega) c
    have hext : ∀ c, addExtras (sortedCats qs T) (remainderFor qs T) 0 (baseFun qs T) c
        = baseFun qs T c + ((List.range' 0 (remainderFor qs T)).filter
          (fun j => (sortedCats qs T).getD (j % (sortedCats qs T).length) "" == c)).length :=
      fun c => addExtras_eq (sortedCats qs T) (remainderFor qs T) 0 (baseFun qs T) c
    have hblt : ∀ c ∈ categoryNames qs, baseFun qs T c < catSize qs c := by
      intro c hc
      unfold baseFun baseQuota
      rw [Nat.div_lt_iff_lt_mul htot]
      calc T * catSize qs c < qs.length * catSize qs c :=
            (Nat.mul_lt_mul_right (catSize_pos hc)).2 hTlt
        _ = catSize qs c * qs.length := Nat.mul_comm _ _
    have hbound : ∀ c ∈ categoryNames qs,
        addExtras (sortedCats qs T) (remainderFor qs T) 0 (baseFun qs T) c ≤ catSize qs c := by
      intro c hc
      rw [hext c]
      have h1 := hhit c
      have h2 := hblt c hc
      omega
    have hquota_fun : quotasFor qs T
        = addExtras (sortedCats qs T) (remainderFor qs T) 0 (baseFun qs T) := by
      unfold quotasFor
      exact clampPass_id _ _ _ hbound
    have hsumbase := sum_baseQuota_le qs T hne
    constructor
    · rw [hquota_fun]
      rw [sum_addExtras (categoryNames qs) hnd (sortedCats qs T) hsub hsort_ne
        (remainderFor qs T) 0 (baseFun qs T)]
      have : ((categoryNames qs).map (baseFun qs T)).sum ≤ T := hsumbase
      unfold remainderFor
      omega
    · intro c hc
      rw [hquota_fun, hext c]
      have h1 := hhit c
      have h2 := hblt c hc
      omega

theorem sum_map_ite_eq {l : List String} (hnd : l.Nodup) (f : String → Nat) (c0 : String)
    (hc0 : c0 ∈ l) : (l.map (fun c => if c = c0 then f c else 0)).sum = f c0 := by
  induction l with
  | nil => simp at hc0
  | cons a as ih =>
      have hnd' := List.nodup_cons.1 hnd
      rcases List.mem_cons.1 hc0 with h | h
      · have hz : (as.map (fun c => if c = c0 then f c else 0)).sum = 0 := by
          rw [List.sum_eq_zero]
          intro x hx
          obtain ⟨c, hcmem, hcx⟩ := List.mem_map.1 hx
          have hne : c ≠ c0 := by
            intro hh
            exact hnd'.1 (h ▸ hh ▸ hcmem)
          rw [← hcx]
          simp [hne]
        simp only [List.map_cons, List.sum_cons, hz]
        rw [if_pos h.symm, h]
        omega
      · have hne : a ≠ c0 := fun hh => hnd'.1 (hh ▸ h)
        simp only [List.map_cons, List.sum_cons, ih hnd'.2 h]
        rw [if_neg hne]
        omega

theorem pick_length (r : Rand) (hr : r.Lawful) (pool : List Question) (T : Nat)
    (c : String) (hq : quotasFor pool T c ≤ catSize pool c) :
    (if 0 < quotasFor pool T c then r.sample (categoryBucket pool c)
      (min (quotasFor pool T c) (categoryBucket pool c).length) else []).length
    = quotasFor pool T c := by
  by_cases h : 0 < quotasFor pool T c
  · rw [if_pos h,
      Nat.min_eq_left (show quotasFor pool T c ≤ (categoryBucket pool c).length from hq)]
    exact (hr.1 _ _ hq).1
  · rw [if_neg h]
    simp only [List.length_nil]
    omega

theorem pick_countP (r : Rand) (hr : r.Lawful) (pool : List Question) (T : Nat)
    (c c0 : String) (hq : quotasFor pool T c ≤ catSize pool c) :
    ((if 0 < quotasFor pool T c then r.sample (categoryBucket pool c)
      (min (quotasFor pool T c) (categoryBucket pool c).length) else []).countP
        (fun q => q.category == c0))
    = if c = c0 then quotasFor pool T c else 0 := by
  by_cases h : 0 < quotasFor pool T c
  · rw [if_pos h,
      Nat.min_eq_left (show quotasFor pool T c ≤ (categoryBucket pool c).length from hq)]
    obtain ⟨hlen, hsub⟩ := hr.1 (categoryBucket pool c) (quotasFor pool T c) hq
    have hmem : ∀ q ∈ r.sample (categoryBucket pool c) (quotasFor pool T c),
        q.category = c := fun q hqm => bucket_category (hsub.subset hqm)
    by_cases hc : c = c0
    · rw [if_pos hc]
      rw [List.countP_eq_length.2 (fun q hqm => by simp [hmem q hqm, hc])]
      exact hlen
    · rw [if_neg hc]
      exact List.countP_eq_zero.2
        (fun q hqm => by simp [hmem q hqm]; exact fun hh => hc hh)
  · rw [if_neg h]
    have hq0 : quotasFor pool T c = 0 := by omega
    simp [hq0]

/-- One category's share of the distributor output equals its exact quota. -/
theorem distribute_filter_count (r : Rand) (hr : r.Lawful) (pool : List Question) (T : Nat)
    (hne : pool ≠ []) (hT : T ≤ pool.length) (c0 : String) (hc0 : c0 ∈ categoryNames pool) :
    ((distribute_questions_by_category r pool T).filter (fun q => q.category == c0)).length
      = quotasFor pool T c0 := by
  obtain ⟨hsum, hmem⟩ := quotasFor_props pool T hne hT
  simp only [distribute_questions_by_category]
  rw [if_neg (by simpa using hne), if_neg (Nat.not_lt.mpr hT)]
  rw [foldl_select_eq_flatten]
  have hpicklen : (categoryNames pool).map (List.length ∘ (fun c =>
      if 0 < quotasFor pool T c then r.sample (categoryBucket pool c)
        (min (quotasFor pool T c) (categoryBucket pool c).length) else []))
      = (categoryNames pool).map (quotasFor pool T) :=
    List.map_congr_left (fun c hc => pick_length r hr pool T c (hmem c hc).2.2)
  have hFlen : (((categoryNames pool).map (fun c =>
      if 0 < quotasFor pool T c then r.sample (categoryBucket pool c)
        (min (quotasFor pool T c) (categoryBucket pool c).length) else [])).flatten).length
      = T := by
    rw [List.length_flatten, List.map_map, hpicklen, hsum]
  have hshuffle := hr.2 ([] ++ ((categoryNames pool).map (fun c =>
      if 0 < quotasFor pool T c then r.sample (categoryBucket pool c)
        (min (quotasFor pool T c) (categoryBucket pool c).length) else [])).flatten)
  have hlen2 : (r.shuffle ([] ++ ((categoryNames pool).map (fun c =>
      if 0 < quotasFor pool T c then r.sample (categoryBucket pool c)
        (min (quotasFor pool T c) (categoryBucket pool c).length) else [])).flatten)).length
      = T := by
    rw [hshuffle.length_eq]
    simpa using hFlen
  rw [List.take_of_length_le (le_of_eq hlen2)]
  rw [← List.countP_eq_length_filter]
  rw [hshuffle.countP_eq]
  rw [List.nil_append, List.countP_flatten, List.map_map]
  have hcong : (categoryNames pool).map ((List.countP (fun q => q.category == c0)) ∘ (fun c =>
      if 0 < quotasFor pool T c then r.sample (categoryBucket pool c)
        (min (quotasFor pool T c) (categoryBucket pool c).length) else []))
      = (categoryNames pool).map (fun c => if c = c0 then quotasFor pool T c else 0) :=
    List.map_congr_left (fun c hc => pick_countP r hr pool T c c0 (hmem c hc).2.2)
  rw [hcong]
  exact sum_map_ite_eq (categoryNames_nodup pool) (quotasFor pool T) c0 hc0

/-- Cast bound: a Nat quota within one of the floored base quota is within one
of the real-valued ideal share. -/
theorem quota_rat_bound (T total quota sz : Nat) (htot : 0 < total)
    (h1 : T * sz / total ≤ quota) (h2 : quota ≤ T * sz / total + 1) :
    |(quota : ℚ) - (T : ℚ) * (sz : ℚ) / (total : ℚ)| ≤ 1 := by
  have htotQ : (0 : ℚ) < (total : ℚ) := by exact_mod_cast htot
  have hl : ((T * sz / total : ℕ) : ℚ) ≤ (T : ℚ) * (sz : ℚ) / (total : ℚ) := by
    have := Nat.cast_div_le (α := ℚ) (m := T * sz) (n := total)
    push_cast at this
    exact this
  have hub : (T : ℚ) * (sz : ℚ) / (total : ℚ) < ((T * sz / total : ℕ) : ℚ) + 1 := by
    rw [div_lt_iff₀ htotQ]
    have hmod := Nat.div_add_mod (T * sz) total
    have hrem := Nat.mod_lt (T * sz) htot
    have hnat : T * sz < (T * sz / total + 1) * total := by
      rw [Nat.add_mul, Nat.one_mul]
      rw [Nat.mul_comm total (T * sz / total)] at hmod
      omega
    exact_mod_cast hnat
  have hq1 : ((T * sz / total : ℕ) : ℚ) ≤ (quota : ℚ) := by exact_mod_cast h1
  have hq2 : (quota : ℚ) ≤ ((T * sz / total : ℕ) : ℚ) + 1 := by exact_mod_cast h2
  rw [abs_le]
  constructor <;> linarith

/-- C3 — for any pool split into categories and any target `T ≤ total`, the
distributor's per-category output counts sum to exactly `T`, never exceed the
category's size, and each is within 1 of the real-valued ideal
`T * size/total`. (The exact quota arithmetic in fact never triggers the
clamping loop, so the bound holds for every category, with no exhaustion
exception needed.) -/
theorem C3_distribution_proportionality (r : Rand) (hr : r.Lawful) (pool : List Question)
    (T : Nat) (hne : pool ≠ []) (hT : T ≤ pool.length) :
    (((categoryNames pool).map (fun c =>
        ((distribute_questions_by_category r pool T).filter
          (fun q => q.category == c)).length)).sum = T) ∧
    ∀ c ∈ categoryNames pool,
      ((distribute_questions_by_category r pool T).filter
          (fun q => q.category == c)).length ≤ catSize pool c ∧
      |((((distribute_questions_by_category r pool T).filter
          (fun q => q.category == c)).length : ℚ))
        - (T : ℚ) * (catSize pool c : ℚ) / (pool.length : ℚ)| ≤ 1 := by
  obtain ⟨hsum, hmem⟩ := quotasFor_props pool T hne hT
  have htot : 0 < pool.length := List.length_pos.2 hne
  constructor
  · rw [List.map_congr_left
      (fun c hc => distribute_filter_count r hr pool T hne hT c hc)]
    exact hsum
  · intro c hc
    rw [distribute_filter_count r hr pool T hne hT c hc]
    obtain ⟨hb1, hb2, hb3⟩ := hmem c hc
    refine ⟨hb3, ?_⟩
    exact quota_rat_bound T pool.length (quotasFor pool T c) (catSize pool c) htot hb1 hb2

/-- Pool of 10 questions in two categories of sizes 6 and 4 (rows 2..11),
every question with two options and correct answer 1. -/
def pool10 : List Question :=
  [sampleQ "A" false 2, sampleQ "A" false 3, sampleQ "A" false 4, sampleQ "A" false 5,
   sampleQ "A" false 6, sampleQ "A" false 7, sampleQ "B" false 8, sampleQ "B" false 9,
   sampleQ "B" false 10, sampleQ "B" false 11]

theorem C3_distribution_proportionality_witness :
    detRand.Lawful ∧ pool10 ≠ [] ∧ 5 ≤ pool10.length ∧
    (((categoryNames pool10).map (fun c =>
        ((distribute_questions_by_category detRand pool10 5).filter
          (fun q => q.category == c)).length)).sum = 5) ∧
    "A" ∈ categoryNames pool10 ∧
    (((distribute_questions_by_category detRand pool10 5).filter
        (fun q => q.category == "A")).length ≤ catSize pool10 "A" ∧
      |((((distribute_questions_by_category detRand pool10 5).filter
          (fun q => q.category == "A")).length : ℚ))
        - (5 : ℚ) * (catSize pool10 "A" : ℚ) / (pool10.length : ℚ)| ≤ 1) :=
  ⟨detRand_lawful, by decide, by decide,
   (C3_distribution_proportionality detRand detRand_lawful pool10 5 (by decide) (by decide)).1,
   by decide,
   (C3_distribution_proportionality detRand detRand_lawful pool10 5 (by decide) (by decide)).2
     "A" (by decide)⟩

/-! ## C9 — end-to-end happy path and the result-recorder call -/

/-- Admin config of the end-to-end happy path. -/
def cfgNine : AdminConfig :=
  { num_questions := 5, max_errors := 3, retry_hours := 24, seconds_per_question := 60 }

/-- C9 (code-bug evidence) — happy path: pool of 10 questions in categories of
sizes 6 and 4, target 5, max_errors 3, all five answers correct within their
deadlines, and a recorder backend that would accept the write
(`recorderOk = true`). The session does end passed with correct_count = 5
(the final message reports result passed, 5 of 5) and both stores are cleared,
BUT the writes list stays empty and the user gets the save warning: the
`write_result` call site omits the required `campaign_name` and `final_status`
parameters, so the call raises TypeError before reaching the sheet and the
`except` swallows it. The claimed "exactly one successful write carrying
correct_count = 5" does not happen. -/
theorem C9_happy_path_no_successful_write :
    (distribute_questions_by_category detRand pool10 5).length = 5 ∧
    (process_answer 50 51 true 4 1 (process_answer 40 41 true 3 1 (process_answer 30 31 true 2 1
        (process_answer 20 21 true 1 1 (process_answer 10 11 true 0 1
          (prepare_test 0 0 cfgNine none pool10 detRand true wFresh)))))).msgs
      = [Msg.testStarted, Msg.questionMsg 0, Msg.questionMsg 1, Msg.questionMsg 2,
         Msg.questionMsg 3, Msg.questionMsg 4, Msg.saveWarning, Msg.result true 5 5] ∧
    (process_answer 50 51 true 4 1 (process_answer 40 41 true 3 1 (process_answer 30 31 true 2 1
        (process_answer 20 21 true 1 1 (process_answer 10 11 true 0 1
          (prepare_test 0 0 cfgNine none pool10 detRand true wFresh)))))).writes = [] ∧
    (process_answer 50 51 true 4 1 (process_answer 40 41 true 3 1 (process_answer 30 31 true 2 1
        (process_answer 20 21 true 1 1 (process_answer 10 11 true 0 1
          (prepare_test 0 0 cfgNine none pool10 detRand true wFresh)))))).conv = ConvData.empty ∧
    (process_answer 50 51 true 4 1 (process_answer 40 41 true 3 1 (process_answer 30 31 true 2 1
        (process_answer 20 21 true 1 1 (process_answer 10 11 true 0 1
          (prepare_test 0 0 cfgNine none pool10 detRand true wFresh)))))).redis = none ∧
    finishCallBindsOk = false := by
  with_unfolding_all decide

end QuizBot
